import Mathlib

/-!
# Verification of the blockgan moderation pipeline (`moderation_tools.py`)

A shallow embedding of the durable rate-limited sync pipeline:

* the staged candidate table `to_be_added` and the done table `added`
  (sqlite tables with `pk="subject"`), modelled as association lists;
* `Moderation.add_likes_to_be_processed` (ingestion staging);
* `BlueskyAPI.fetch_likes` (cursor-driven page walk);
* `Moderation.process_list` (the drain pass), instrumented with an event
  trace and the list of intermediate store states so that crash points and
  external calls are observable.

External collaborators (the Bluesky client, the pyrate limiter) are
modelled by their contracts: the client as a function from cursors to
pages, the external add-to-list action as a subject-indexed
`Except`-valued oracle, and the limiter as a persisted counting bucket
whose `tryAcquire` reports granted/refused.  The decisive facts for the
claims (the drain discards the limiter verdict, the external call is not
guarded by a handler, ingestion swallows every insert error) live in the
repository source and are embedded from it directly.
-/

/-- A reaction ("like") record as ingestion sees it: the actor's DID and
handle (`like.actor.did`, `like.actor.handle`). -/
structure Like where
  did : String
  handle : String
deriving DecidableEq, Repr

/-- A row of the staged table `to_be_added` (pk = `subject`). -/
structure Row where
  subject : String
  handle : String
  source : String
  action : String
deriving DecidableEq, Repr

/-- A row of the done table `added` (pk = `subject`). -/
structure DoneRow where
  subject : String
  handle : String
  source : String
  action : String
  list_url : String
deriving DecidableEq, Repr

/-- The durable moderation store `moderation.sqlite`: the staged table and
the done table, each kept in rowid (insertion) order. -/
structure ModState where
  to_be_added : List Row
  added : List DoneRow
deriving DecidableEq, Repr

/-- Subjects currently staged. -/
def stagedSubjects (st : ModState) : List String :=
  st.to_be_added.map (fun r => r.subject)

/-- Subjects currently in the done table. -/
def doneSubjects (tbl : List DoneRow) : List String :=
  tbl.map (fun r => r.subject)

/-- `table.insert(..., pk="subject")` on the staged table: a duplicate
primary key raises an integrity error, otherwise the row is appended. -/
def stagedInsertPk (tbl : List Row) (r : Row) : Except String (List Row) :=
  if tbl.any (fun q => q.subject = r.subject) then
    .error "UNIQUE constraint failed: to_be_added.subject"
  else
    .ok (tbl ++ [r])

/-- `table.insert(..., pk="subject", alter=True)` on the done table. -/
def doneInsertPk (tbl : List DoneRow) (r : DoneRow) : Except String (List DoneRow) :=
  if tbl.any (fun q => q.subject = r.subject) then
    .error "UNIQUE constraint failed: added.subject"
  else
    .ok (tbl ++ [r])

/-- `self._moderationDb["added"].get(subject)`: `some` row, or `none` for
the `NotFoundError` path. -/
def doneGet (tbl : List DoneRow) (s : String) : Option DoneRow :=
  tbl.find? (fun r => r.subject = s)

/-- `self._moderationDb["to_be_added"].delete(subject)`: delete by primary
key (a no-op when the key is absent). -/
def stagedDeleteByPk (tbl : List Row) (s : String) : List Row :=
  tbl.filter (fun r => ¬ r.subject = s)

/-- The staged row built by ingestion for one like: note the source inserts
the literal action tag `"like"`. -/
def mkStagedRow (post_url : String) (l : Like) : Row :=
  { subject := l.did, handle := l.handle, source := post_url, action := "like" }

/-- Modelled from the spec (§3): the spec names the single action variant
`"add-to-list"`; kept as a separate definition to compare with the tag the
source actually stages. -/
def specActionTag : String := "add-to-list"

/-- `Moderation.add_likes_to_be_processed`, after the page walk: for each
like, `insert` the staged row and swallow any exception
(`except Exception: pass`). -/
def add_likes_to_be_processed (st : ModState) (post_url : String)
    (likes : List Like) : ModState :=
  { st with
    to_be_added := likes.foldl (fun tbl l =>
      match stagedInsertPk tbl (mkStagedRow post_url l) with
      | .ok t => t
      | .error _ => tbl) st.to_be_added }

/-- One page of likes as returned by `client.get_likes`: the items and an
optional continuation cursor (cursor tokens are opaque; modelled as `Nat`). -/
structure LikePage where
  likes : List Like
  cursor : Option Nat
deriving DecidableEq, Repr

/-- The paginated-likes side of the Bluesky client: the page served for the
initial cursorless request, and the page served for each cursor. -/
structure LikesClient where
  first : LikePage
  next : Nat → LikePage

/-- The `while page.cursor and all:` loop of `fetch_likes`, with fuel
bounding the unrolling (any finite execution fits some fuel).  Returns the
accumulated likes and the number of page requests made by the loop.
Mirrors the source: a freshly fetched page's likes are appended only when
the page is non-empty (`if page.likes:`). -/
def fetch_likes_aux (next : Nat → LikePage) :
    Nat → Option Nat → List Like → List Like × Nat
  | _, none, acc => (acc, 0)
  | 0, some _, acc => (acc, 0)
  | fuel + 1, some c, acc =>
      let page := next c
      let acc1 := if page.likes.isEmpty then acc else acc ++ page.likes
      let res := fetch_likes_aux next fuel page.cursor acc1
      (res.1, res.2 + 1)

/-- `BlueskyAPI.fetch_likes`: fetch the first page, then follow cursors
while one remains (and `all` is set).  Returns the likes together with the
total number of `get_likes` requests made. -/
def fetch_likes (c : LikesClient) (all : Bool) (fuel : Nat) : List Like × Nat :=
  let page := c.first
  let res :=
    if all then fetch_likes_aux c.next fuel page.cursor page.likes
    else (page.likes, 0)
  (res.1, res.2 + 1)

/-- A client serving a finite chain of pages: the initial request returns
page 0, and each page links to the next by cursor until the last page,
which carries no cursor. -/
def chainClient (pages : List (List Like)) : LikesClient where
  first := { likes := pages.headD [],
             cursor := if 1 < pages.length then some 1 else none }
  next := fun i =>
    { likes := pages.getD i [],
      cursor := if i + 1 < pages.length then some (i + 1) else none }

/-- The persisted rate-limit bucket, modelled from the spec's contract
(§4.2) for the external pyrate limiter: a window of `capacity` actions, of
which `consumed` are already spent. -/
structure Limiter where
  capacity : Nat
  consumed : Nat
deriving DecidableEq, Repr

/-- `Limiter.try_acquire` with `raise_when_fail=False`: grant (consuming a
token) while the window has capacity, otherwise report refusal instead of
raising. -/
def tryAcquire (lim : Limiter) : Bool × Limiter :=
  if lim.consumed < lim.capacity then
    (true, { lim with consumed := lim.consumed + 1 })
  else
    (false, lim)

/-- Observable events of a drain pass. -/
inductive Event where
  /-- `try_acquire` returned, with its (discarded) verdict. -/
  | acquire (granted : Bool)
  /-- `add_item_to_list` was invoked for a subject; `ok` records whether
  the external call returned or raised. -/
  | externalCall (subject : String) (ok : Bool)
  /-- a row was inserted into the done table. -/
  | doneInsert (subject : String)
  /-- a row was deleted from the staged table. -/
  | stagedDelete (subject : String)
  /-- the "already added to list, ignoring" message was printed. -/
  | logAlready (subject : String)
deriving DecidableEq, Repr

/-- Outcome of a drain pass: the final store state and limiter, the list
of observable steps — each event paired with the store state right after
it (the crash points a recovery argument quantifies over) — and whether an
uncaught exception aborted the pass. -/
structure DrainResult where
  state : ModState
  lim : Limiter
  steps : List (Event × ModState)
  aborted : Bool
deriving Repr

/-- The event trace of a drain pass. -/
def DrainResult.trace (r : DrainResult) : List Event :=
  r.steps.map Prod.fst

/-- The done-table row built by the drain pass from a staged row (the
`added` insert payload of `process_list`). -/
def doneRowOf (list_url : String) (row : Row) : DoneRow :=
  { subject := row.subject, handle := row.handle, source := row.source,
    action := row.action, list_url := list_url }

/-- The body of the drain loop for one staged row, mirroring
`process_list`:

* `added.get(subject)` succeeds → print "already added", delete the staged
  row, continue;
* otherwise `try_acquire` (verdict discarded), invoke the external
  add-to-list action; if it raises, the exception propagates (pass
  aborts); on success insert into `added` then delete from `to_be_added`
  (an insert error would likewise propagate). -/
def processRow (extAct : String → Except String Unit) (list_url : String)
    (st : ModState) (lim : Limiter) (row : Row) : DrainResult :=
  match doneGet st.added row.subject with
  | some _ =>
      let st1 : ModState :=
        { st with to_be_added := stagedDeleteByPk st.to_be_added row.subject }
      { state := st1, lim := lim,
        steps := [(.logAlready row.subject, st), (.stagedDelete row.subject, st1)],
        aborted := false }
  | none =>
      let acq := tryAcquire lim
      match extAct row.subject with
      | .error _ =>
          { state := st, lim := acq.2,
            steps := [(.acquire acq.1, st), (.externalCall row.subject false, st)],
            aborted := true }
      | .ok _ =>
          match doneInsertPk st.added (doneRowOf list_url row) with
          | .error _ =>
              { state := st, lim := acq.2,
                steps := [(.acquire acq.1, st),
                          (.externalCall row.subject true, st)],
                aborted := true }
          | .ok added1 =>
              let st1 : ModState := { st with added := added1 }
              let st2 : ModState :=
                { st1 with
                  to_be_added := stagedDeleteByPk st1.to_be_added row.subject }
              { state := st2, lim := acq.2,
                steps := [(.acquire acq.1, st),
                          (.externalCall row.subject true, st),
                          (.doneInsert row.subject, st1),
                          (.stagedDelete row.subject, st2)],
                aborted := false }

/-- The drain loop over the snapshot of staged rows; an abort stops the
remaining rows. -/
def process_list_aux (extAct : String → Except String Unit) (list_url : String) :
    List Row → ModState → Limiter → DrainResult
  | [], st, lim =>
      { state := st, lim := lim, steps := [], aborted := false }
  | row :: rest, st, lim =>
      let r := processRow extAct list_url st lim row
      if r.aborted then r
      else
        let rs := process_list_aux extAct list_url rest r.state r.lim
        { state := rs.state, lim := rs.lim, steps := r.steps ++ rs.steps,
          aborted := rs.aborted }

/-- `Moderation.process_list`: one drain pass over the rows staged at pass
start. -/
def process_list (extAct : String → Except String Unit) (list_url : String)
    (st : ModState) (lim : Limiter) : DrainResult :=
  process_list_aux extAct list_url st.to_be_added st lim

/-- An external action that always succeeds. -/
def alwaysOk : String → Except String Unit := fun _ => .ok ()

/-- Recogniser for external-call events. -/
def isExternalCall : Event → Bool
  | .externalCall _ _ => true
  | _ => false

/-! ## Concrete fixtures for scenario claims -/

/-- Three fresh staged candidates, for the capacity-2 rate-limit scenario. -/
def exStaged3 : List Row :=
  [{ subject := "did:s1", handle := "h1", source := "src", action := "like" },
   { subject := "did:s2", handle := "h2", source := "src", action := "like" },
   { subject := "did:s3", handle := "h3", source := "src", action := "like" }]

/-- Store with the three candidates staged and nothing done. -/
def exState3 : ModState := { to_be_added := exStaged3, added := [] }

/-- Staged rows X, Y, Z for the partial-failure scenario. -/
def rowX : Row := { subject := "did:x", handle := "hx", source := "src", action := "like" }

/-- Staged row Y of the partial-failure scenario. -/
def rowY : Row := { subject := "did:y", handle := "hy", source := "src", action := "like" }

/-- Staged row Z of the partial-failure scenario. -/
def rowZ : Row := { subject := "did:z", handle := "hz", source := "src", action := "like" }

/-- Store with X, Y, Z staged and nothing done. -/
def exStateXYZ : ModState := { to_be_added := [rowX, rowY, rowZ], added := [] }

/-- An external action that raises exactly for subject Y. -/
def failOnY : String → Except String Unit :=
  fun s => if s = "did:y" then .error "network error" else .ok ()

/-- A generous limiter (capacity well above the scenario sizes). -/
def limBig : Limiter := { capacity := 100, consumed := 0 }

/-- A done-table row for the already-done and re-staging scenarios. -/
def exDoneRowS : DoneRow :=
  { subject := "did:s", handle := "h", source := "src", action := "like",
    list_url := "list" }

/-- A staged row for the same subject as `exDoneRowS`. -/
def exRowS : Row := { subject := "did:s", handle := "h", source := "src", action := "like" }

/-- A like by the subject of `exDoneRowS`. -/
def exLikeS : Like := { did := "did:s", handle := "h" }

/-- Store where subject `did:s` is both staged and done (the state left by a
crash between the done-insert and the staged-delete). -/
def exStateBoth : ModState := { to_be_added := [exRowS], added := [exDoneRowS] }

/-- Store where subject `did:s` is done but not staged. -/
def exStateDoneOnly : ModState := { to_be_added := [], added := [exDoneRowS] }

/-- Likes by two distinct actors, the first of which is already staged. -/
def exLikeA : Like := { did := "did:a", handle := "a" }

/-- A like by a second, fresh actor. -/
def exLikeB : Like := { did := "did:b", handle := "b" }

/-- Store where actor `did:a` is already staged. -/
def exStateA : ModState :=
  { to_be_added := [mkStagedRow "src" exLikeA], added := [] }

/-- The empty store. -/
def exStateEmpty : ModState := { to_be_added := [], added := [] }

/-- Three concrete pages of likes for the pagination scenario. -/
def exPages3 : List (List Like) :=
  [[exLikeA, exLikeB], [{ did := "did:c", handle := "c" }],
   [{ did := "did:d", handle := "d" }]]

/-- A client whose first page is empty and carries no cursor. -/
def emptyClient : LikesClient :=
  { first := { likes := [], cursor := none },
    next := fun _ => { likes := [], cursor := none } }

/-! ## Basic lemmas about the table primitives -/

lemma doneGet_eq_none_iff {tbl : List DoneRow} {s : String} :
    doneGet tbl s = none ↔ s ∉ doneSubjects tbl := by
  simp only [doneGet, doneSubjects, List.find?_eq_none, List.mem_map,
    decide_eq_true_eq, not_exists, not_and]

lemma doneGet_isSome_of_mem {tbl : List DoneRow} {s : String}
    (h : s ∈ doneSubjects tbl) : ∃ d, doneGet tbl s = some d := by
  cases hd : doneGet tbl s with
  | none => exact absurd (doneGet_eq_none_iff.mp hd) (by simpa using h)
  | some d => exact ⟨d, rfl⟩

lemma doneInsertPk_ok {tbl : List DoneRow} {r : DoneRow}
    (h : r.subject ∉ doneSubjects tbl) :
    doneInsertPk tbl r = .ok (tbl ++ [r]) := by
  have : tbl.any (fun q => q.subject = r.subject) = false := by
    simp only [List.any_eq_false, decide_eq_true_eq]
    intro q hq hqe
    exact h (by simpa [doneSubjects, List.mem_map] using ⟨q, hq, hqe⟩)
  simp [doneInsertPk, this]

lemma stagedInsertPk_ok {tbl : List Row} {r : Row}
    (h : r.subject ∉ tbl.map (fun q => q.subject)) :
    stagedInsertPk tbl r = .ok (tbl ++ [r]) := by
  have : tbl.any (fun q => q.subject = r.subject) = false := by
    simp only [List.any_eq_false, decide_eq_true_eq]
    intro q hq hqe
    exact h (by simpa [List.mem_map] using ⟨q, hq, hqe⟩)
  simp [stagedInsertPk, this]

lemma stagedInsertPk_err {tbl : List Row} {r : Row}
    (h : r.subject ∈ tbl.map (fun q => q.subject)) :
    stagedInsertPk tbl r = .error "UNIQUE constraint failed: to_be_added.subject" := by
  have : tbl.any (fun q => q.subject = r.subject) = true := by
    simp only [List.any_eq_true, decide_eq_true_eq]
    obtain ⟨q, hq, hqe⟩ := List.mem_map.mp h
    exact ⟨q, hq, hqe⟩
  simp [stagedInsertPk, this]

lemma mem_stagedDeleteByPk {tbl : List Row} {s t : String} :
    t ∈ (stagedDeleteByPk tbl s).map (fun r => r.subject) ↔
      t ∈ tbl.map (fun r => r.subject) ∧ t ≠ s := by
  simp only [stagedDeleteByPk, List.mem_map, List.mem_filter, decide_eq_true_eq]
  constructor
  · rintro ⟨r, ⟨hr, hne⟩, rfl⟩
    exact ⟨⟨r, hr, rfl⟩, by simpa using hne⟩
  · rintro ⟨⟨r, hr, rfl⟩, hne⟩
    exact ⟨r, ⟨hr, by simpa using hne⟩, rfl⟩

/-! ## Case-analysis lemmas for one drain-loop iteration -/

/-- The already-done branch of the drain loop. -/
lemma processRow_already {extAct : String → Except String Unit} {lu : String}
    {st : ModState} {lim : Limiter} {row : Row} {d : DoneRow}
    (h : doneGet st.added row.subject = some d) :
    processRow extAct lu st lim row =
      { state := { st with to_be_added := stagedDeleteByPk st.to_be_added row.subject },
        lim := lim,
        steps := [(.logAlready row.subject, st),
                  (.stagedDelete row.subject,
                   { st with to_be_added := stagedDeleteByPk st.to_be_added row.subject })],
        aborted := false } := by
  simp [processRow, h]

/-- The fresh branch when the external call raises. -/
lemma processRow_fresh_fail {extAct : String → Except String Unit} {lu : String}
    {st : ModState} {lim : Limiter} {row : Row} {e : String}
    (h : doneGet st.added row.subject = none)
    (hf : extAct row.subject = .error e) :
    processRow extAct lu st lim row =
      { state := st, lim := (tryAcquire lim).2,
        steps := [(.acquire (tryAcquire lim).1, st),
                  (.externalCall row.subject false, st)],
        aborted := true } := by
  simp [processRow, h, hf]

/-- The fresh branch when the external call succeeds: done-insert then
staged-delete. -/
lemma processRow_fresh_ok {extAct : String → Except String Unit} {lu : String}
    {st : ModState} {lim : Limiter} {row : Row}
    (h : doneGet st.added row.subject = none)
    (hok : extAct row.subject = .ok ()) :
    processRow extAct lu st lim row =
      { state := { to_be_added := stagedDeleteByPk st.to_be_added row.subject,
                   added := st.added ++ [doneRowOf lu row] },
        lim := (tryAcquire lim).2,
        steps := [(.acquire (tryAcquire lim).1, st),
                  (.externalCall row.subject true, st),
                  (.doneInsert row.subject,
                   { st with added := st.added ++ [doneRowOf lu row] }),
                  (.stagedDelete row.subject,
                   { to_be_added := stagedDeleteByPk st.to_be_added row.subject,
                     added := st.added ++ [doneRowOf lu row] })],
        aborted := false } := by
  have hins : doneInsertPk st.added (doneRowOf lu row) =
      .ok (st.added ++ [doneRowOf lu row]) :=
    doneInsertPk_ok (by simpa [doneRowOf] using doneGet_eq_none_iff.mp h)
  simp [processRow, h, hok, hins]

lemma mem_doneSubjects_of_doneGet_some {tbl : List DoneRow} {s : String}
    {d : DoneRow} (h : doneGet tbl s = some d) : s ∈ doneSubjects tbl := by
  have hmem : d ∈ tbl := List.mem_of_find?_eq_some h
  have hsub : d.subject = s := by
    have := List.find?_some h
    simpa using this
  exact hsub ▸ List.mem_map_of_mem (fun r => r.subject) hmem

/-! ## Monotonicity of the drain pass -/

/-- One drain iteration never removes rows from the done table. -/
lemma processRow_done_mono {extAct : String → Except String Unit} {lu : String}
    {st : ModState} {lim : Limiter} {row : Row} :
    doneSubjects st.added ⊆
      doneSubjects (processRow extAct lu st lim row).state.added := by
  cases hd : doneGet st.added row.subject with
  | some d =>
    rw [processRow_already hd]
    exact fun a ha => ha
  | none =>
    cases hok : extAct row.subject with
    | error e =>
      rw [processRow_fresh_fail hd hok]
      exact fun a ha => ha
    | ok u =>
      cases u
      rw [processRow_fresh_ok hd hok]
      simp only [doneSubjects, List.map_append]
      exact List.subset_append_left _ _

/-- One drain iteration never adds rows to the staged table. -/
lemma processRow_staged_sub {extAct : String → Except String Unit} {lu : String}
    {st : ModState} {lim : Limiter} {row : Row} :
    stagedSubjects (processRow extAct lu st lim row).state ⊆ stagedSubjects st := by
  cases hd : doneGet st.added row.subject with
  | some d =>
    rw [processRow_already hd]
    intro t ht
    exact (mem_stagedDeleteByPk.mp ht).1
  | none =>
    cases hok : extAct row.subject with
    | error e =>
      rw [processRow_fresh_fail hd hok]
      exact fun a ha => ha
    | ok u =>
      cases u
      rw [processRow_fresh_ok hd hok]
      intro t ht
      exact (mem_stagedDeleteByPk.mp ht).1

/-- A drain pass never removes rows from the done table. -/
lemma process_list_aux_done_mono {extAct : String → Except String Unit}
    {lu : String} : ∀ (rows : List Row) (st : ModState) (lim : Limiter),
    doneSubjects st.added ⊆
      doneSubjects (process_list_aux extAct lu rows st lim).state.added := by
  intro rows
  induction rows with
  | nil => intro st lim; simp [process_list_aux]
  | cons row rest ih =>
    intro st lim
    by_cases hab : (processRow extAct lu st lim row).aborted
    · simp only [process_list_aux, hab, if_true]
      exact processRow_done_mono
    · simp only [process_list_aux, hab, if_false]
      exact processRow_done_mono.trans (ih _ _)

/-- A drain pass never adds rows to the staged table. -/
lemma process_list_aux_staged_sub {extAct : String → Except String Unit}
    {lu : String} : ∀ (rows : List Row) (st : ModState) (lim : Limiter),
    stagedSubjects (process_list_aux extAct lu rows st lim).state ⊆
      stagedSubjects st := by
  intro rows
  induction rows with
  | nil => intro st lim; simp [process_list_aux]
  | cons row rest ih =>
    intro st lim
    by_cases hab : (processRow extAct lu st lim row).aborted
    · simp only [process_list_aux, hab, if_true]
      exact processRow_staged_sub
    · simp only [process_list_aux, hab, if_false]
      exact (ih _ _).trans processRow_staged_sub

/-! ## Crash-safety invariants of the drain pass -/

/-- Through every intermediate store state of one drain iteration, a
subject present in the staged or done table stays present in one of them. -/
lemma processRow_steps_inv {extAct : String → Except String Unit} {lu : String}
    {st : ModState} {lim : Limiter} {row : Row} {s : String}
    (h : s ∈ stagedSubjects st ∨ s ∈ doneSubjects st.added) :
    (∀ p ∈ (processRow extAct lu st lim row).steps,
        s ∈ stagedSubjects p.2 ∨ s ∈ doneSubjects p.2.added) ∧
    (s ∈ stagedSubjects (processRow extAct lu st lim row).state ∨
     s ∈ doneSubjects (processRow extAct lu st lim row).state.added) := by
  cases hd : doneGet st.added row.subject with
  | some d =>
    rw [processRow_already hd]
    have hfin : s ∈ stagedSubjects
        { st with to_be_added := stagedDeleteByPk st.to_be_added row.subject } ∨
        s ∈ doneSubjects st.added := by
      rcases h with hstg | hdone
      · by_cases hs : s = row.subject
        · exact Or.inr (hs ▸ mem_doneSubjects_of_doneGet_some hd)
        · exact Or.inl (mem_stagedDeleteByPk.mpr ⟨hstg, hs⟩)
      · exact Or.inr hdone
    refine ⟨?_, hfin⟩
    intro p hp
    simp only [List.mem_cons, List.not_mem_nil, or_false] at hp
    rcases hp with hp | hp
    · rw [hp]; exact h
    · rw [hp]; exact hfin
  | none =>
    cases hok : extAct row.subject with
    | error e =>
      rw [processRow_fresh_fail hd hok]
      refine ⟨?_, h⟩
      intro p hp
      simp only [List.mem_cons, List.not_mem_nil, or_false] at hp
      rcases hp with hp | hp
      · rw [hp]; exact h
      · rw [hp]; exact h
    | ok u =>
      cases u
      rw [processRow_fresh_ok hd hok]
      have hdone1 : ∀ t, t ∈ doneSubjects st.added →
          t ∈ doneSubjects (st.added ++ [doneRowOf lu row]) := by
        intro t ht
        simp only [doneSubjects, List.map_append] at ht ⊢
        exact List.mem_append_left _ ht
      have hrowdone : row.subject ∈ doneSubjects (st.added ++ [doneRowOf lu row]) := by
        simp [doneSubjects, doneRowOf]
      have hfin : s ∈ stagedSubjects
          { to_be_added := stagedDeleteByPk st.to_be_added row.subject,
            added := st.added ++ [doneRowOf lu row] } ∨
          s ∈ doneSubjects (st.added ++ [doneRowOf lu row]) := by
        rcases h with hstg | hdone
        · by_cases hs : s = row.subject
          · exact Or.inr (hs ▸ hrowdone)
          · exact Or.inl (mem_stagedDeleteByPk.mpr ⟨hstg, hs⟩)
        · exact Or.inr (hdone1 _ hdone)
      have hmid : s ∈ stagedSubjects
          { st with added := st.added ++ [doneRowOf lu row] } ∨
          s ∈ doneSubjects (st.added ++ [doneRowOf lu row]) := by
        rcases h with hstg | hdone
        · exact Or.inl hstg
        · exact Or.inr (hdone1 _ hdone)
      refine ⟨?_, hfin⟩
      intro p hp
      simp only [List.mem_cons, List.not_mem_nil, or_false] at hp
      rcases hp with hp | hp | hp | hp
      · rw [hp]; exact h
      · rw [hp]; exact h
      · rw [hp]; exact hmid
      · rw [hp]; exact hfin

/-- Through every intermediate store state of a whole drain pass, a subject
present in the staged or done table stays present in one of them. -/
lemma process_list_aux_steps_inv {extAct : String → Except String Unit}
    {lu : String} {s : String} : ∀ (rows : List Row) (st : ModState) (lim : Limiter),
    (s ∈ stagedSubjects st ∨ s ∈ doneSubjects st.added) →
    (∀ p ∈ (process_list_aux extAct lu rows st lim).steps,
        s ∈ stagedSubjects p.2 ∨ s ∈ doneSubjects p.2.added) ∧
    (s ∈ stagedSubjects (process_list_aux extAct lu rows st lim).state ∨
     s ∈ doneSubjects (process_list_aux extAct lu rows st lim).state.added) := by
  intro rows
  induction rows with
  | nil =>
    intro st lim h
    simpa [process_list_aux] using h
  | cons row rest ih =>
    intro st lim h
    have hrow := @processRow_steps_inv extAct lu st lim row s h
    by_cases hab : (processRow extAct lu st lim row).aborted
    · simp only [process_list_aux, hab, if_true]
      exact hrow
    · have hrest := ih (processRow extAct lu st lim row).state
        (processRow extAct lu st lim row).lim hrow.2
      simp only [process_list_aux, hab, if_false]
      refine ⟨?_, hrest.2⟩
      intro p hp
      rcases List.mem_append.mp hp with hp | hp
      · exact hrow.1 p hp
      · exact hrest.1 p hp

/-- At the moment a staged row is deleted during one drain iteration, its
subject is already in the done table. -/
lemma processRow_delete_done {extAct : String → Except String Unit} {lu : String}
    {st : ModState} {lim : Limiter} {row : Row} {s : String}
    {p : Event × ModState}
    (hp : p ∈ (processRow extAct lu st lim row).steps)
    (he : p.1 = Event.stagedDelete s) :
    s ∈ doneSubjects p.2.added := by
  cases hd : doneGet st.added row.subject with
  | some d =>
    rw [processRow_already hd] at hp
    simp only [List.mem_cons, List.not_mem_nil, or_false] at hp
    rcases hp with hp | hp
    · rw [hp] at he; cases he
    · rw [hp] at he ⊢
      have : row.subject = s := by
        simpa [Event.stagedDelete.injEq] using he
      exact this ▸ mem_doneSubjects_of_doneGet_some hd
  | none =>
    cases hok : extAct row.subject with
    | error e =>
      rw [processRow_fresh_fail hd hok] at hp
      simp only [List.mem_cons, List.not_mem_nil, or_false] at hp
      rcases hp with hp | hp <;> rw [hp] at he <;> cases he
    | ok u =>
      cases u
      rw [processRow_fresh_ok hd hok] at hp
      simp only [List.mem_cons, List.not_mem_nil, or_false] at hp
      rcases hp with hp | hp | hp | hp
      · rw [hp] at he; cases he
      · rw [hp] at he; cases he
      · rw [hp] at he; cases he
      · rw [hp] at he ⊢
        have : row.subject = s := by
          simpa [Event.stagedDelete.injEq] using he
        simp [doneSubjects, doneRowOf, ← this]

/-- At the moment a staged row is deleted during a drain pass, its subject
is already in the done table (the done-insert happened first). -/
lemma process_list_aux_delete_done {extAct : String → Except String Unit}
    {lu : String} {s : String} : ∀ (rows : List Row) (st : ModState) (lim : Limiter),
    ∀ p ∈ (process_list_aux extAct lu rows st lim).steps,
      p.1 = Event.stagedDelete s → s ∈ doneSubjects p.2.added := by
  intro rows
  induction rows with
  | nil => intro st lim p hp; simp [process_list_aux] at hp
  | cons row rest ih =>
    intro st lim p hp he
    by_cases hab : (processRow extAct lu st lim row).aborted
    · simp only [process_list_aux, hab, if_true] at hp
      exact processRow_delete_done hp he
    · simp only [process_list_aux, hab, if_false] at hp
      rcases List.mem_append.mp hp with hp | hp
      · exact processRow_delete_done hp he
      · exact ih _ _ p hp he

/-! ## The already-done gate of the drain pass -/

/-- One drain iteration emits no external call for a subject already in the
done table. -/
lemma processRow_no_external_of_done {extAct : String → Except String Unit}
    {lu : String} {st : ModState} {lim : Limiter} {row : Row} {s : String}
    (hs : s ∈ doneSubjects st.added) :
    ∀ p ∈ (processRow extAct lu st lim row).steps, ∀ ok : Bool,
      p.1 ≠ Event.externalCall s ok := by
  cases hd : doneGet st.added row.subject with
  | some d =>
    rw [processRow_already hd]
    intro p hp ok
    simp only [List.mem_cons, List.not_mem_nil, or_false] at hp
    rcases hp with hp | hp <;> rw [hp] <;> simp
  | none =>
    have hne : row.subject ≠ s := by
      intro hcontra
      exact (doneGet_eq_none_iff.mp hd) (hcontra ▸ hs)
    cases hok : extAct row.subject with
    | error e =>
      rw [processRow_fresh_fail hd hok]
      intro p hp ok
      simp only [List.mem_cons, List.not_mem_nil, or_false] at hp
      rcases hp with hp | hp <;> rw [hp] <;> simp [hne]
    | ok u =>
      cases u
      rw [processRow_fresh_ok hd hok]
      intro p hp ok
      simp only [List.mem_cons, List.not_mem_nil, or_false] at hp
      rcases hp with hp | hp | hp | hp <;> rw [hp] <;> simp [hne]

/-- A drain pass emits no external call for a subject already in the done
table at pass start. -/
lemma process_list_aux_no_external_of_done {extAct : String → Except String Unit}
    {lu : String} {s : String} : ∀ (rows : List Row) (st : ModState) (lim : Limiter),
    s ∈ doneSubjects st.added →
    ∀ p ∈ (process_list_aux extAct lu rows st lim).steps, ∀ ok : Bool,
      p.1 ≠ Event.externalCall s ok := by
  intro rows
  induction rows with
  | nil => intro st lim hs p hp; simp [process_list_aux] at hp
  | cons row rest ih =>
    intro st lim hs p hp ok
    by_cases hab : (processRow extAct lu st lim row).aborted
    · simp only [process_list_aux, hab, if_true] at hp
      exact processRow_no_external_of_done hs p hp ok
    · simp only [process_list_aux, hab, if_false] at hp
      rcases List.mem_append.mp hp with hp | hp
      · exact processRow_no_external_of_done hs p hp ok
      · exact ih _ _ (processRow_done_mono hs) p hp ok

/-- If a pass completes without abort and a subject in the done table also
has a staged row in the pass's snapshot, the pass logs "already added" for
it and its staged rows are gone afterwards. -/
lemma process_list_aux_done_cleanup {extAct : String → Except String Unit}
    {lu : String} {s : String} : ∀ (rows : List Row) (st : ModState) (lim : Limiter),
    s ∈ doneSubjects st.added →
    (process_list_aux extAct lu rows st lim).aborted = false →
    s ∈ rows.map (fun r => r.subject) →
    s ∉ stagedSubjects (process_list_aux extAct lu rows st lim).state ∧
    Event.logAlready s ∈ (process_list_aux extAct lu rows st lim).trace := by
  intro rows
  induction rows with
  | nil => intro st lim hs hab hrow; simp at hrow
  | cons row rest ih =>
    intro st lim hs hab hrow
    by_cases hcase : row.subject = s
    · obtain ⟨d, hd⟩ := doneGet_isSome_of_mem (hcase ▸ hs)
      have habF : (processRow extAct lu st lim row).aborted = false := by
        rw [processRow_already hd]
      simp only [process_list_aux, habF, if_false, Bool.false_eq_true] at hab ⊢
      have hnotst : s ∉ stagedSubjects (processRow extAct lu st lim row).state := by
        rw [processRow_already hd]
        intro hmem
        exact (mem_stagedDeleteByPk.mp hmem).2 hcase.symm
      constructor
      · intro hmem
        exact hnotst (process_list_aux_staged_sub _ _ _ hmem)
      · have : Event.logAlready s ∈ (processRow extAct lu st lim row).trace := by
          rw [processRow_already hd, hcase]
          simp [DrainResult.trace]
        simp only [DrainResult.trace, List.map_append, List.mem_append]
        exact Or.inl this
    · have hrow' : s ∈ rest.map (fun r => r.subject) := by
        simp only [List.map_cons, List.mem_cons] at hrow
        rcases hrow with hh | hh
        · exact absurd hh.symm hcase
        · exact hh
      by_cases hab1 : (processRow extAct lu st lim row).aborted
      · simp only [process_list_aux, hab1, if_true] at hab
        simp [hab1] at hab
      · simp only [process_list_aux, hab1, if_false, Bool.false_eq_true] at hab ⊢
        have hrest := ih (processRow extAct lu st lim row).state
          (processRow extAct lu st lim row).lim
          (processRow_done_mono hs) hab hrow'
        constructor
        · exact hrest.1
        · simp only [DrainResult.trace, List.map_append, List.mem_append]
          exact Or.inr hrest.2

/-! ## The drain pass ignores the limiter verdict -/

/-- With an always-successful external action, a drain pass invokes the
external action once for every staged candidate not yet done — whatever
the limiter's capacity — completes without abort, and leaves none of those
candidates staged. -/
lemma process_list_aux_all_external {lu : String} :
    ∀ (rows : List Row) (st : ModState) (lim : Limiter),
    (rows.map (fun r => r.subject)).Nodup →
    (∀ r ∈ rows, r.subject ∉ doneSubjects st.added) →
    ((process_list_aux alwaysOk lu rows st lim).trace.countP isExternalCall
        = rows.length) ∧
    (process_list_aux alwaysOk lu rows st lim).aborted = false ∧
    (∀ r ∈ rows, r.subject ∉
        stagedSubjects (process_list_aux alwaysOk lu rows st lim).state) := by
  intro rows
  induction rows with
  | nil =>
    intro st lim hnd hfresh
    simp [process_list_aux, DrainResult.trace]
  | cons row rest ih =>
    intro st lim hnd hfresh
    have hd : doneGet st.added row.subject = none :=
      doneGet_eq_none_iff.mpr (hfresh row (List.mem_cons_self _ _))
    have hrw := @processRow_fresh_ok alwaysOk lu st lim row hd rfl
    have habF : (processRow alwaysOk lu st lim row).aborted = false := by
      rw [hrw]
    simp only [List.map_cons, List.nodup_cons] at hnd
    have hndrest : (rest.map (fun r => r.subject)).Nodup := hnd.2
    have hrowrest : row.subject ∉ rest.map (fun r => r.subject) := hnd.1
    have hfresh' : ∀ r ∈ rest, r.subject ∉
        doneSubjects (processRow alwaysOk lu st lim row).state.added := by
      intro r hr
      rw [hrw]
      simp only [doneSubjects, List.map_append, List.mem_append]
      rintro (hmem | hmem)
      · exact hfresh r (List.mem_cons_of_mem _ hr) hmem
      · have : r.subject = row.subject := by
          simpa [doneRowOf] using hmem
        exact hrowrest (this ▸ List.mem_map_of_mem (fun q => q.subject) hr)
    have hrest := ih (processRow alwaysOk lu st lim row).state
      (processRow alwaysOk lu st lim row).lim hndrest hfresh'
    simp only [process_list_aux, habF, Bool.false_eq_true, if_false]
    refine ⟨?_, hrest.2.1, ?_⟩
    · simp only [DrainResult.trace, List.map_append, List.countP_append]
      have hhd : (processRow alwaysOk lu st lim row).steps.map Prod.fst =
          [Event.acquire (tryAcquire lim).1,
           Event.externalCall row.subject true,
           Event.doneInsert row.subject,
           Event.stagedDelete row.subject] := by
        rw [hrw]
        rfl
      rw [hhd]
      have hcount := hrest.1
      simp only [DrainResult.trace] at hcount
      simp [List.countP_cons, isExternalCall, hcount, List.length_cons,
        Nat.add_comm]
    · intro r hr
      rcases List.mem_cons.mp hr with hr | hr
      · subst hr
        intro hmem
        have hmem' := process_list_aux_staged_sub _ _ _ hmem
        rw [hrw] at hmem'
        exact (mem_stagedDeleteByPk.mp hmem').2 rfl
      · exact hrest.2.2 r hr

/-! ## External failure aborts the whole drain pass -/

/-- If, among fresh candidates with pairwise-distinct subjects, the
external action succeeds on every candidate of `pre` and raises on `y`,
the drain pass over `pre ++ y :: post` aborts; only `pre`'s subjects are
deleted from the staged table or inserted into the done table, and only
`pre`'s subjects and `y` are ever sent to the external action. -/
lemma process_list_aux_abort_at {extAct : String → Except String Unit}
    {lu : String} {y : Row} {e : String} :
    ∀ (pre post : List Row) (st : ModState) (lim : Limiter),
    (((pre ++ y :: post).map (fun r => r.subject)).Nodup) →
    (∀ r ∈ pre ++ y :: post, r.subject ∉ doneSubjects st.added) →
    (∀ r ∈ pre, extAct r.subject = .ok ()) →
    extAct y.subject = .error e →
    (process_list_aux extAct lu (pre ++ y :: post) st lim).aborted = true ∧
    (∀ s, s ∈ stagedSubjects st → s ∉ pre.map (fun r => r.subject) →
        s ∈ stagedSubjects (process_list_aux extAct lu (pre ++ y :: post) st lim).state) ∧
    (∀ s, s ∈ doneSubjects
          (process_list_aux extAct lu (pre ++ y :: post) st lim).state.added →
        s ∈ doneSubjects st.added ∨ s ∈ pre.map (fun r => r.subject)) ∧
    (∀ s (ok : Bool), Event.externalCall s ok ∈
          (process_list_aux extAct lu (pre ++ y :: post) st lim).trace →
        s ∈ pre.map (fun r => r.subject) ∨ s = y.subject) := by
  intro pre
  induction pre with
  | nil =>
    intro post st lim hnd hfresh hok hfail
    have hd : doneGet st.added y.subject = none :=
      doneGet_eq_none_iff.mpr (hfresh y (by simp))
    have hrw := @processRow_fresh_fail extAct lu st lim y e hd hfail
    have habT : (processRow extAct lu st lim y).aborted = true := by rw [hrw]
    simp only [List.nil_append, process_list_aux, habT, if_true]
    refine ⟨trivial, ?_, ?_, ?_⟩
    · intro s hs _
      rw [hrw]
      exact hs
    · intro s hs
      rw [hrw] at hs
      exact Or.inl hs
    · intro s ok hs
      rw [hrw] at hs
      simp only [DrainResult.trace, List.map_cons, List.map_nil,
        List.mem_cons, List.not_mem_nil, or_false] at hs
      rcases hs with hs | hs
      · cases hs
      · simp only [Event.externalCall.injEq] at hs
        exact Or.inr hs.1
  | cons p pre' ih =>
    intro post st lim hnd hfresh hok hfail
    have hd : doneGet st.added p.subject = none :=
      doneGet_eq_none_iff.mpr (hfresh p (by simp))
    have hokp : extAct p.subject = .ok () := hok p (List.mem_cons_self _ _)
    have hrw := @processRow_fresh_ok extAct lu st lim p hd hokp
    have habF : (processRow extAct lu st lim p).aborted = false := by rw [hrw]
    simp only [List.cons_append, List.map_cons, List.nodup_cons] at hnd
    have hpnot : p.subject ∉ (pre' ++ y :: post).map (fun r => r.subject) := by
      simpa using hnd.1
    have hfresh' : ∀ r ∈ pre' ++ y :: post, r.subject ∉
        doneSubjects (processRow extAct lu st lim p).state.added := by
      intro r hr
      rw [hrw]
      simp only [doneSubjects, List.map_append, List.mem_append]
      rintro (hmem | hmem)
      · exact hfresh r (List.mem_cons_of_mem _ hr) hmem
      · have hrp : r.subject = p.subject := by simpa [doneRowOf] using hmem
        exact hpnot (hrp ▸ List.mem_map_of_mem (fun q => q.subject) hr)
    have hrest := ih post (processRow extAct lu st lim p).state
      (processRow extAct lu st lim p).lim hnd.2 hfresh'
      (fun r hr => hok r (List.mem_cons_of_mem _ hr)) hfail
    simp only [List.cons_append, process_list_aux, habF, Bool.false_eq_true,
      if_false]
    refine ⟨hrest.1, ?_, ?_, ?_⟩
    · intro s hs hnotpre
      simp only [List.map_cons, List.mem_cons, not_or] at hnotpre
      refine hrest.2.1 s ?_ hnotpre.2
      rw [hrw]
      exact mem_stagedDeleteByPk.mpr ⟨hs, hnotpre.1⟩
    · intro s hs
      rcases hrest.2.2.1 s hs with hs' | hs'
      · rw [hrw] at hs'
        simp only [doneSubjects, List.map_append, List.mem_append] at hs'
        rcases hs' with hs' | hs'
        · exact Or.inl hs'
        · have : s = p.subject := by simpa [doneRowOf] using hs'
          exact Or.inr (by simp [this])
      · exact Or.inr (by simp [hs'])
    · intro s ok hs
      simp only [DrainResult.trace, List.map_append, List.mem_append] at hs
      rcases hs with hs | hs
      · rw [hrw] at hs
        simp only [List.map_cons, List.map_nil, List.mem_cons,
          List.not_mem_nil, or_false] at hs
        rcases hs with hs | hs | hs | hs
        · cases hs
        · simp only [Event.externalCall.injEq] at hs
          exact Or.inl (by simp [hs.1.symm])
        · cases hs
        · cases hs
      · rcases hrest.2.2.2 s ok hs with hs' | hs'
        · exact Or.inl (by simp [hs'])
        · exact Or.inr hs'

/-! ## Ingestion staging lemmas -/

lemma add_likes_nil {st : ModState} {u : String} :
    add_likes_to_be_processed st u [] = st := rfl

/-- A like whose subject already has a staged row is dropped: the insert
raises, the handler swallows it, and staging continues with the rest. -/
lemma add_likes_cons_present {st : ModState} {u : String} {l : Like}
    {rest : List Like} (h : l.did ∈ stagedSubjects st) :
    add_likes_to_be_processed st u (l :: rest) =
      add_likes_to_be_processed st u rest := by
  have herr := @stagedInsertPk_err st.to_be_added (mkStagedRow u l)
    (by simpa [mkStagedRow, stagedSubjects] using h)
  simp [add_likes_to_be_processed, List.foldl_cons, herr]

/-- A like whose subject has no staged row is appended to the staged
table. -/
lemma add_likes_cons_fresh {st : ModState} {u : String} {l : Like}
    {rest : List Like} (h : l.did ∉ stagedSubjects st) :
    add_likes_to_be_processed st u (l :: rest) =
      add_likes_to_be_processed
        { st with to_be_added := st.to_be_added ++ [mkStagedRow u l] } u rest := by
  have hok := @stagedInsertPk_ok st.to_be_added (mkStagedRow u l)
    (by simpa [mkStagedRow, stagedSubjects] using h)
  simp [add_likes_to_be_processed, List.foldl_cons, hok]

/-- Ingestion never removes staged rows. -/
lemma add_likes_staged_mono {u : String} :
    ∀ (likes : List Like) (st : ModState),
    stagedSubjects st ⊆ stagedSubjects (add_likes_to_be_processed st u likes) := by
  intro likes
  induction likes with
  | nil =>
    intro st
    rw [add_likes_nil]
    exact fun a ha => ha
  | cons l rest ih =>
    intro st
    by_cases h : l.did ∈ stagedSubjects st
    · rw [add_likes_cons_present h]
      exact ih st
    · rw [add_likes_cons_fresh h]
      have hstep : stagedSubjects st ⊆ stagedSubjects
          { st with to_be_added := st.to_be_added ++ [mkStagedRow u l] } := by
        intro t ht
        simp only [stagedSubjects, List.map_append, List.mem_append]
        exact Or.inl ht
      exact hstep.trans
        (ih { st with to_be_added := st.to_be_added ++ [mkStagedRow u l] })

/-- Every actor appearing among the ingested likes has a staged row after
ingestion — whether staged by this call, a previous call, or already
present. -/
lemma add_likes_mem_staged {u : String} :
    ∀ (likes : List Like) (st : ModState) (l : Like), l ∈ likes →
    l.did ∈ stagedSubjects (add_likes_to_be_processed st u likes) := by
  intro likes
  induction likes with
  | nil => intro st l h; cases h
  | cons hd rest ih =>
    intro st l hmem
    rcases List.mem_cons.mp hmem with hl | hl
    · subst hl
      by_cases h : l.did ∈ stagedSubjects st
      · rw [add_likes_cons_present h]
        exact add_likes_staged_mono rest st h
      · rw [add_likes_cons_fresh h]
        refine add_likes_staged_mono rest _ ?_
        simp [stagedSubjects, mkStagedRow]
    · by_cases h : hd.did ∈ stagedSubjects st
      · rw [add_likes_cons_present h]
        exact ih st l hl
      · rw [add_likes_cons_fresh h]
        exact ih _ l hl

/-- Every row ingestion adds to the staged table carries the literal
action tag `"like"`. -/
lemma add_likes_new_rows_action {u : String} :
    ∀ (likes : List Like) (st : ModState),
    ∀ r ∈ (add_likes_to_be_processed st u likes).to_be_added,
      r ∈ st.to_be_added ∨ r.action = "like" := by
  intro likes
  induction likes with
  | nil => intro st r hr; rw [add_likes_nil] at hr; exact Or.inl hr
  | cons l rest ih =>
    intro st r hr
    by_cases h : l.did ∈ stagedSubjects st
    · rw [add_likes_cons_present h] at hr
      exact ih st r hr
    · rw [add_likes_cons_fresh h] at hr
      rcases ih _ r hr with hr' | hr'
      · rcases List.mem_append.mp hr' with hr'' | hr''
        · exact Or.inl hr''
        · refine Or.inr ?_
          have : r = mkStagedRow u l := by simpa using hr''
          rw [this, mkStagedRow]
      · exact Or.inr hr'

/-! ## Pagination lemmas -/

lemma chain_aux {pages : List (List Like)} :
    ∀ (fuel i : Nat) (acc : List Like), 1 ≤ i → pages.length ≤ i + fuel →
    fetch_likes_aux (chainClient pages).next fuel
        (if i < pages.length then some i else none) acc =
      (acc ++ (pages.drop i).flatten, pages.length - i) := by
  intro fuel
  induction fuel with
  | zero =>
    intro i acc hi hlen
    simp only [Nat.add_zero] at hlen
    rw [if_neg (by omega)]
    rw [List.drop_eq_nil_of_le hlen]
    simp [fetch_likes_aux]
    omega
  | succ fuel ih =>
    intro i acc hi hlen
    by_cases hcase : i < pages.length
    · rw [if_pos hcase]
      have hnext : (chainClient pages).next i =
          { likes := pages.getD i [],
            cursor := if i + 1 < pages.length then some (i + 1) else none } := rfl
      have hacc : (if (pages.getD i []).isEmpty then acc
            else acc ++ pages.getD i []) = acc ++ pages.getD i [] := by
        by_cases hemp : (pages.getD i []).isEmpty
        · rw [if_pos hemp, List.isEmpty_iff.mp hemp]
          simp
        · rw [if_neg hemp]
      have hrec := ih (i + 1) (acc ++ pages.getD i []) (by omega) (by omega)
      have hdrop : pages.drop i = pages.getD i [] :: pages.drop (i + 1) := by
        rw [List.getD_eq_getElem _ _ hcase]
        exact List.drop_eq_getElem_cons hcase
      simp only [fetch_likes_aux, hnext, hacc, hrec]
      rw [hdrop]
      simp only [List.flatten_cons, Prod.mk.injEq]
      refine ⟨by rw [List.append_assoc], by omega⟩
    · rw [if_neg hcase]
      rw [List.drop_eq_nil_of_le (by omega)]
      simp [fetch_likes_aux]
      omega

/-- Walking a finite cursor chain of pages collects exactly the
concatenation of all pages' likes and makes exactly one page request per
page (one initial request when there are no pages at all). -/
lemma fetch_likes_chain {pages : List (List Like)} {fuel : Nat}
    (h : pages.length ≤ fuel + 1) :
    fetch_likes (chainClient pages) true fuel =
      (pages.flatten, max 1 pages.length) := by
  cases pages with
  | nil =>
    simp [fetch_likes, chainClient, fetch_likes_aux]
  | cons p ps =>
    have haux := @chain_aux (p :: ps) fuel 1 p (le_refl 1)
      (by simp only [List.length_cons] at h ⊢; omega)
    have hcur : (chainClient (p :: ps)).first.cursor =
        (if 1 < (p :: ps).length then some 1 else none) := rfl
    have hlik : (chainClient (p :: ps)).first.likes = p := rfl
    simp only [fetch_likes]
    rw [if_pos trivial, hcur, hlik, haux]
    have hdrop : List.drop 1 (p :: ps) = ps := rfl
    rw [hdrop]
    simp only [Prod.mk.injEq]
    refine ⟨rfl, ?_⟩
    simp only [List.length_cons]
    omega

/-- An empty first page without a cursor ends the walk at once: one page
request, no likes. -/
lemma fetch_likes_empty_first {c : LikesClient} {fuel : Nat}
    (h : c.first = { likes := [], cursor := none }) :
    fetch_likes c true fuel = ([], 1) := by
  simp [fetch_likes, h, fetch_likes_aux]

/-- Ingestion never removes or alters existing staged rows. -/
lemma add_likes_rows_mono {u : String} :
    ∀ (likes : List Like) (st : ModState) (r : Row), r ∈ st.to_be_added →
    r ∈ (add_likes_to_be_processed st u likes).to_be_added := by
  intro likes
  induction likes with
  | nil =>
    intro st r hr
    rw [add_likes_nil]
    exact hr
  | cons l rest ih =>
    intro st r hr
    by_cases h : l.did ∈ stagedSubjects st
    · rw [add_likes_cons_present h]
      exact ih st r hr
    · rw [add_likes_cons_fresh h]
      exact ih _ r (List.mem_append_left _ hr)

/-! ## Claim theorems -/

/-- Claim C1, counterexample: with a limiter of capacity 2 and three fresh
staged candidates, the drain pass does NOT stop at the refusal — it
invokes the external action a third time and leaves no candidate staged,
refuting "at most 2 external actions are invoked and the 3rd candidate
remains staged". -/
theorem C1_counterexample :
    ¬ (((process_list alwaysOk "list" exState3
            { capacity := 2, consumed := 0 }).trace.countP isExternalCall ≤ 2) ∧
       "did:s3" ∈ stagedSubjects
         (process_list alwaysOk "list" exState3
            { capacity := 2, consumed := 0 }).state) := by
  decide

/-- Claim C1 (amended): the drain pass discards the limiter's verdict.
Whatever the limiter's capacity and prior consumption, a pass over staged
candidates with pairwise-distinct subjects, none yet done, with an
always-successful external action invokes the external action once per
candidate, completes without abort, and leaves none of them staged; a
refusal changes nothing about the pass's behaviour. -/
theorem C1_rate_refusal_ignored (lu : String) (st : ModState) (lim : Limiter)
    (hnd : (st.to_be_added.map (fun r => r.subject)).Nodup)
    (hfresh : ∀ r ∈ st.to_be_added, r.subject ∉ doneSubjects st.added) :
    (process_list alwaysOk lu st lim).trace.countP isExternalCall
        = st.to_be_added.length ∧
    (process_list alwaysOk lu st lim).aborted = false ∧
    ∀ r ∈ st.to_be_added, r.subject ∉
        stagedSubjects (process_list alwaysOk lu st lim).state :=
  process_list_aux_all_external st.to_be_added st lim hnd hfresh

/-- Witness for C1's amended theorem at the capacity-2, three-candidate
scenario: the hypotheses hold, the trace contains a refusal, and still all
three external calls happen. -/
theorem C1_rate_refusal_ignored_witness :
    ((exState3.to_be_added.map (fun r => r.subject)).Nodup ∧
     (∀ r ∈ exState3.to_be_added, r.subject ∉ doneSubjects exState3.added)) ∧
    Event.acquire false ∈
      (process_list alwaysOk "list" exState3
        { capacity := 2, consumed := 0 }).trace ∧
    (process_list alwaysOk "list" exState3
        { capacity := 2, consumed := 0 }).trace.countP isExternalCall = 3 := by
  refine ⟨⟨by decide, by decide⟩, by decide, ?_⟩
  exact (C1_rate_refusal_ignored "list" exState3
    { capacity := 2, consumed := 0 } (by decide) (by decide)).1

/-- Claim C2, counterexample: with X, Y, Z staged and an external action
failing only on Y, the pass does NOT complete with Z done — it aborts at Y
(the exception propagates), refuting "X and Z in the done table ... and
the run completes". -/
theorem C2_counterexample :
    ¬ ("did:z" ∈ doneSubjects
          (process_list failOnY "list" exStateXYZ limBig).state.added ∧
       (process_list failOnY "list" exStateXYZ limBig).aborted = false) := by
  decide

/-- Claim C2 (amended): when the external action raises for candidate `y`,
`y` is left staged with no done-table insert — but the exception
propagates and aborts the whole pass: every candidate after `y` also stays
staged and is never sent to the external action (there is no per-candidate
recovery, no error logging, no continuation). -/
theorem C2_external_failure_aborts_pass (extAct : String → Except String Unit)
    (lu : String) (st : ModState) (lim : Limiter)
    (pre post : List Row) (y : Row) (e : String)
    (hsplit : st.to_be_added = pre ++ y :: post)
    (hnd : (st.to_be_added.map (fun r => r.subject)).Nodup)
    (hfresh : ∀ r ∈ st.to_be_added, r.subject ∉ doneSubjects st.added)
    (hok : ∀ r ∈ pre, extAct r.subject = .ok ())
    (hfail : extAct y.subject = .error e) :
    (process_list extAct lu st lim).aborted = true ∧
    y.subject ∈ stagedSubjects (process_list extAct lu st lim).state ∧
    y.subject ∉ doneSubjects (process_list extAct lu st lim).state.added ∧
    (∀ r ∈ post, r.subject ∈ stagedSubjects (process_list extAct lu st lim).state) ∧
    (∀ r ∈ post, ∀ ok : Bool,
        Event.externalCall r.subject ok ∉ (process_list extAct lu st lim).trace) := by
  have hnd' : ((pre ++ y :: post).map (fun r => r.subject)).Nodup := by
    rw [← hsplit]; exact hnd
  have hfresh' : ∀ r ∈ pre ++ y :: post, r.subject ∉ doneSubjects st.added := by
    rw [← hsplit]; exact hfresh
  have H := @process_list_aux_abort_at extAct lu y e pre post st lim hnd' hfresh'
    hok hfail
  have hPL : process_list extAct lu st lim =
      process_list_aux extAct lu (pre ++ y :: post) st lim := by
    rw [process_list, hsplit]
  have hsplitmap : (pre ++ y :: post).map (fun r => r.subject)
      = pre.map (fun r => r.subject) ++
        (y.subject :: post.map (fun r => r.subject)) := by
    simp
  rw [hsplitmap] at hnd'
  rcases List.nodup_append.mp hnd' with ⟨hnd1, hnd2, hdisj⟩
  have hyNotPre : y.subject ∉ pre.map (fun r => r.subject) := by
    intro hmem
    exact hdisj hmem (List.mem_cons_self _ _)
  have hpostNotPre : ∀ r ∈ post, r.subject ∉ pre.map (fun r => r.subject) := by
    intro r hr hmem
    exact hdisj hmem
      (List.mem_cons_of_mem _ (List.mem_map_of_mem (fun q => q.subject) hr))
  have hyNotPost : y.subject ∉ post.map (fun r => r.subject) :=
    (List.nodup_cons.mp hnd2).1
  have hyStaged : y.subject ∈ stagedSubjects st := by
    rw [stagedSubjects, hsplit]
    simp
  have hpostStaged : ∀ r ∈ post, r.subject ∈ stagedSubjects st := by
    intro r hr
    rw [stagedSubjects, hsplit]
    simp only [List.map_append, List.map_cons, List.mem_append, List.mem_cons]
    exact Or.inr (Or.inr (List.mem_map_of_mem (fun q => q.subject) hr))
  rw [hPL]
  refine ⟨H.1, H.2.1 y.subject hyStaged hyNotPre, ?_, ?_, ?_⟩
  · intro hmem
    rcases H.2.2.1 y.subject hmem with hc | hc
    · exact hfresh' y (by simp) hc
    · exact hyNotPre hc
  · intro r hr
    exact H.2.1 r.subject (hpostStaged r hr) (hpostNotPre r hr)
  · intro r hr ok hmem
    rcases H.2.2.2 r.subject ok hmem with hc | hc
    · exact hpostNotPre r hr hc
    · exact hyNotPost (hc ▸ List.mem_map_of_mem (fun q => q.subject) hr)

/-- Witness for C2's amended theorem at the X, Y, Z scenario with the
action failing exactly on Y: the pass aborts, X is done, Y and Z stay
staged, and Z is never sent to the external action. -/
theorem C2_external_failure_aborts_pass_witness :
    (process_list failOnY "list" exStateXYZ limBig).aborted = true ∧
    "did:y" ∈ stagedSubjects (process_list failOnY "list" exStateXYZ limBig).state ∧
    "did:y" ∉ doneSubjects
      (process_list failOnY "list" exStateXYZ limBig).state.added ∧
    (∀ r ∈ [rowZ], r.subject ∈
        stagedSubjects (process_list failOnY "list" exStateXYZ limBig).state) ∧
    (∀ r ∈ [rowZ], ∀ ok : Bool, Event.externalCall r.subject ok ∉
        (process_list failOnY "list" exStateXYZ limBig).trace) :=
  C2_external_failure_aborts_pass failOnY "list" exStateXYZ limBig
    [rowX] [rowZ] rowY "network error" rfl (by decide) (by decide)
    (by intro r hr; simp only [List.mem_singleton] at hr; subst hr; rfl) rfl

/-- Claim C3: a subject already in the done table when the pass starts is
never sent to the external action; and when the pass completes, any staged
row for it has been deleted and the "already added" message was printed.
In particular a subject left in both tables by an interrupted transition
is not re-sent to the external action on the next run. -/
theorem C3_done_subjects_skipped (extAct : String → Except String Unit)
    (lu : String) (st : ModState) (lim : Limiter) (s : String)
    (hdone : s ∈ doneSubjects st.added) :
    (∀ ok : Bool,
        Event.externalCall s ok ∉ (process_list extAct lu st lim).trace) ∧
    ((process_list extAct lu st lim).aborted = false →
      s ∈ stagedSubjects st →
      s ∉ stagedSubjects (process_list extAct lu st lim).state ∧
      Event.logAlready s ∈ (process_list extAct lu st lim).trace) := by
  constructor
  · intro ok hmem
    rcases List.mem_map.mp hmem with ⟨p, hp, hfst⟩
    exact process_list_aux_no_external_of_done st.to_be_added st lim hdone
      p hp ok hfst
  · intro hab hstg
    exact process_list_aux_done_cleanup st.to_be_added st lim hdone hab hstg

/-- Witness for C3 at the both-tables state left by an interrupted
transition: subject `did:s` is staged and done; the drain pass sends no
external call for it, deletes its staged row, and logs the skip. -/
theorem C3_done_subjects_skipped_witness :
    (∀ ok : Bool, Event.externalCall "did:s" ok ∉
        (process_list alwaysOk "list" exStateBoth limBig).trace) ∧
    ((process_list alwaysOk "list" exStateBoth limBig).aborted = false →
      "did:s" ∈ stagedSubjects exStateBoth →
      "did:s" ∉ stagedSubjects
          (process_list alwaysOk "list" exStateBoth limBig).state ∧
      Event.logAlready "did:s" ∈
          (process_list alwaysOk "list" exStateBoth limBig).trace) :=
  C3_done_subjects_skipped alwaysOk "list" exStateBoth limBig "did:s" (by decide)

/-- Claim C4, counterexample: subject `did:s` is in the done table, the
staged table is empty, yet ingesting a like by that subject inserts a new
staged row — staging consults only the staged table, refuting "stage is a
no-op when the subject is already present in either the staged or the done
table". -/
theorem C4_counterexample :
    "did:s" ∈ doneSubjects exStateDoneOnly.added ∧
    "did:s" ∈ stagedSubjects
        (add_likes_to_be_processed exStateDoneOnly "src" [exLikeS]) := by
  decide

/-- Claim C4 (amended): staging is a no-op only for subjects that already
have a staged row; the done table is not consulted, so a subject present
only in the done table is re-staged — a fresh staged row for it is
inserted (it is skipped and cleaned up only later, at drain time). -/
theorem C4_done_subject_restaged (st : ModState) (u : String)
    (rest : List Like) (l : Like)
    (hdone : l.did ∈ doneSubjects st.added)
    (hnot : l.did ∉ stagedSubjects st) :
    mkStagedRow u l ∉ st.to_be_added ∧
    mkStagedRow u l ∈ (add_likes_to_be_processed st u (l :: rest)).to_be_added := by
  constructor
  · intro hmem
    exact hnot (List.mem_map_of_mem (fun q => q.subject) hmem)
  · rw [add_likes_cons_fresh hnot]
    refine add_likes_rows_mono rest _ _ ?_
    exact List.mem_append_right _ (List.mem_singleton_self _)

/-- Witness for C4's amended theorem: ingesting a like by the done-only
subject `did:s` appends a brand-new staged row for it. -/
theorem C4_done_subject_restaged_witness :
    mkStagedRow "src" exLikeS ∉ exStateDoneOnly.to_be_added ∧
    mkStagedRow "src" exLikeS ∈
      (add_likes_to_be_processed exStateDoneOnly "src" [exLikeS]).to_be_added :=
  C4_done_subject_restaged exStateDoneOnly "src" [] exLikeS (by decide) (by decide)

/-- Claim C5: through every intermediate store state of a drain pass a
subject staged or done at pass start remains staged or done (a crash can
leave it in both tables but never in neither), and whenever the pass
deletes a staged row the subject is already in the done table at that
moment — the done-insert precedes the staged-delete. -/
theorem C5_done_insert_precedes_staged_delete
    (extAct : String → Except String Unit) (lu : String)
    (st : ModState) (lim : Limiter) (s : String)
    (h : s ∈ stagedSubjects st ∨ s ∈ doneSubjects st.added) :
    (∀ p ∈ (process_list extAct lu st lim).steps,
        s ∈ stagedSubjects p.2 ∨ s ∈ doneSubjects p.2.added) ∧
    (∀ p ∈ (process_list extAct lu st lim).steps,
        p.1 = Event.stagedDelete s → s ∈ doneSubjects p.2.added) :=
  ⟨(process_list_aux_steps_inv st.to_be_added st lim h).1,
   fun p hp he => process_list_aux_delete_done st.to_be_added st lim p hp he⟩

/-- Witness for C5 at the three-candidate scenario for subject `did:s1`:
it is staged or done in every intermediate state, and its staged-delete
happens only once it is in the done table. -/
theorem C5_done_insert_precedes_staged_delete_witness :
    (∀ p ∈ (process_list alwaysOk "list" exState3
          { capacity := 2, consumed := 0 }).steps,
        "did:s1" ∈ stagedSubjects p.2 ∨ "did:s1" ∈ doneSubjects p.2.added) ∧
    (∀ p ∈ (process_list alwaysOk "list" exState3
          { capacity := 2, consumed := 0 }).steps,
        p.1 = Event.stagedDelete "did:s1" →
        "did:s1" ∈ doneSubjects p.2.added) :=
  C5_done_insert_precedes_staged_delete alwaysOk "list" exState3
    { capacity := 2, consumed := 0 } "did:s1" (Or.inl (by decide))

/-- Claim C6: staging the same subject twice yields exactly one staged row
for it and raises no error — the second insert's duplicate-key exception
is swallowed and the staged table is left exactly as after the first
stage. -/
theorem C6_stage_idempotent (st : ModState) (u : String) (l : Like)
    (h : l.did ∉ stagedSubjects st) :
    (add_likes_to_be_processed st u [l, l]).to_be_added.countP
        (fun r => r.subject = l.did) = 1 ∧
    add_likes_to_be_processed st u [l, l] = add_likes_to_be_processed st u [l] := by
  have hmem : l.did ∈ stagedSubjects
      { st with to_be_added := st.to_be_added ++ [mkStagedRow u l] } := by
    simp [stagedSubjects, mkStagedRow]
  have h2 : add_likes_to_be_processed st u [l, l]
      = { st with to_be_added := st.to_be_added ++ [mkStagedRow u l] } := by
    rw [add_likes_cons_fresh h, add_likes_cons_present hmem, add_likes_nil]
  have h1 : add_likes_to_be_processed st u [l]
      = { st with to_be_added := st.to_be_added ++ [mkStagedRow u l] } := by
    rw [add_likes_cons_fresh h, add_likes_nil]
  refine ⟨?_, by rw [h2, h1]⟩
  rw [h2]
  have hzero : st.to_be_added.countP (fun r => r.subject = l.did) = 0 := by
    rw [List.countP_eq_zero]
    intro r hr
    simp only [decide_eq_true_eq]
    intro hcontra
    exact h (hcontra ▸ List.mem_map_of_mem (fun q => q.subject) hr)
  simp [List.countP_append, hzero, List.countP_cons, mkStagedRow]

/-- Witness for C6: staging the like by `did:a` twice into the empty store
leaves exactly one staged row for `did:a`, identically to staging it
once. -/
theorem C6_stage_idempotent_witness :
    (add_likes_to_be_processed exStateEmpty "src" [exLikeA, exLikeA]).to_be_added.countP
        (fun r => r.subject = exLikeA.did) = 1 ∧
    add_likes_to_be_processed exStateEmpty "src" [exLikeA, exLikeA]
      = add_likes_to_be_processed exStateEmpty "src" [exLikeA] :=
  C6_stage_idempotent exStateEmpty "src" exLikeA (by decide)

/-- Claim C7, counterexample: during ingestion staging the duplicate-key
insert for the already-staged `did:a` raises, yet the run is not stopped —
the error is swallowed and the next like (`did:b`) is still staged,
refuting "must stop processing ... in every stage of the pipeline". -/
theorem C7_counterexample :
    stagedInsertPk exStateA.to_be_added (mkStagedRow "src" exLikeA)
        = .error "UNIQUE constraint failed: to_be_added.subject" ∧
    "did:b" ∈ stagedSubjects
        (add_likes_to_be_processed exStateA "src" [exLikeA, exLikeB]) :=
  ⟨rfl, by decide⟩

/-- Claim C7 (amended): in ingestion staging a duplicate-key violation is
never fatal: the insert raises, the bare exception handler swallows it,
and staging continues exactly as if that like had been skipped. -/
theorem C7_ingest_swallows_insert_error (st : ModState) (u : String)
    (l : Like) (rest : List Like) (h : l.did ∈ stagedSubjects st) :
    stagedInsertPk st.to_be_added (mkStagedRow u l)
        = .error "UNIQUE constraint failed: to_be_added.subject" ∧
    add_likes_to_be_processed st u (l :: rest)
      = add_likes_to_be_processed st u rest :=
  ⟨@stagedInsertPk_err st.to_be_added (mkStagedRow u l)
      (by simpa [mkStagedRow, stagedSubjects] using h),
   add_likes_cons_present h⟩

/-- Witness for C7's amended theorem: re-ingesting `did:a` into a store
where it is staged makes the insert raise, and the result equals ingesting
only the remaining like `did:b`. -/
theorem C7_ingest_swallows_insert_error_witness :
    stagedInsertPk exStateA.to_be_added (mkStagedRow "src" exLikeA)
        = .error "UNIQUE constraint failed: to_be_added.subject" ∧
    add_likes_to_be_processed exStateA "src" [exLikeA, exLikeB]
      = add_likes_to_be_processed exStateA "src" [exLikeB] :=
  C7_ingest_swallows_insert_error exStateA "src" exLikeA [exLikeB] (by decide)

/-- Claim C8: walking a finite cursor chain collects exactly the
concatenation of all pages' likes with exactly one request per page (so no
request after the cursor is absent), and ingestion then gives every actor
of every page a staged row. -/
theorem C8_pagination_walk (pages : List (List Like)) (fuel : Nat)
    (st : ModState) (u : String) (h : pages.length ≤ fuel + 1) :
    (fetch_likes (chainClient pages) true fuel).1 = pages.flatten ∧
    (fetch_likes (chainClient pages) true fuel).2 = max 1 pages.length ∧
    ∀ l ∈ pages.flatten, l.did ∈ stagedSubjects
        (add_likes_to_be_processed st u
          (fetch_likes (chainClient pages) true fuel).1) := by
  have hf := @fetch_likes_chain pages fuel h
  refine ⟨by rw [hf], by rw [hf], ?_⟩
  intro l hl
  rw [hf]
  exact add_likes_mem_staged pages.flatten st l hl

/-- Witness for C8 at the three-page scenario: three requests in total,
the likes are the union of the three pages, and all four actors end up
staged. -/
theorem C8_pagination_walk_witness :
    (fetch_likes (chainClient exPages3) true 10).1 = exPages3.flatten ∧
    (fetch_likes (chainClient exPages3) true 10).2 = 3 ∧
    ∀ l ∈ exPages3.flatten, l.did ∈ stagedSubjects
        (add_likes_to_be_processed exStateEmpty "src"
          (fetch_likes (chainClient exPages3) true 10).1) :=
  C8_pagination_walk exPages3 10 exStateEmpty "src" (by decide)

/-- Claim C9, counterexample: the row staged for a fresh actor carries the
action tag `"like"`, not the spec's `"add-to-list"` variant — refuting
"every candidate staged by ingestion carries the action tag
add-to-list". -/
theorem C9_counterexample :
    ¬ (∀ r ∈ (add_likes_to_be_processed exStateEmpty "src"
          [exLikeA]).to_be_added, r.action = specActionTag) := by
  decide

/-- Claim C9 (amended): every row ingestion adds to the staged table
carries the literal action tag `"like"` (a single fixed tag — but it is
the reaction kind, not the spec's `"add-to-list"` variant). -/
theorem C9_staged_action_tag_like (st : ModState) (u : String)
    (likes : List Like) (r : Row)
    (hr : r ∈ (add_likes_to_be_processed st u likes).to_be_added) :
    r ∈ st.to_be_added ∨ (r.action = "like" ∧ r.action ≠ specActionTag) := by
  rcases add_likes_new_rows_action likes st r hr with h | h
  · exact Or.inl h
  · refine Or.inr ⟨h, ?_⟩
    rw [h]
    decide

/-- Witness for C9's amended theorem: the row staged for `did:a` in the
empty store is new and tagged `"like"`, which differs from
`"add-to-list"`. -/
theorem C9_staged_action_tag_like_witness :
    mkStagedRow "src" exLikeA ∈ exStateEmpty.to_be_added ∨
    ((mkStagedRow "src" exLikeA).action = "like" ∧
     (mkStagedRow "src" exLikeA).action ≠ specActionTag) :=
  C9_staged_action_tag_like exStateEmpty "src" [exLikeA]
    (mkStagedRow "src" exLikeA) (by decide)

/-- Claim C10: a first page that is empty and carries no cursor ends the
walk immediately — exactly one page request, no likes collected — and the
subsequent staging pass is a no-op that completes without error. -/
theorem C10_empty_first_page (c : LikesClient) (fuel : Nat) (st : ModState)
    (u : String) (h : c.first = { likes := [], cursor := none }) :
    fetch_likes c true fuel = ([], 1) ∧
    add_likes_to_be_processed st u (fetch_likes c true fuel).1 = st := by
  have hf := @fetch_likes_empty_first c fuel h
  refine ⟨hf, ?_⟩
  rw [hf]
  exact add_likes_nil

/-- Witness for C10 with a concrete empty client and the empty store. -/
theorem C10_empty_first_page_witness :
    fetch_likes emptyClient true 5 = ([], 1) ∧
    add_likes_to_be_processed exStateEmpty "src"
        (fetch_likes emptyClient true 5).1 = exStateEmpty :=
  C10_empty_first_page emptyClient 5 exStateEmpty "src" rfl
